import Mathlib

/-!
Verification of the MicroBlocks gateway adapter protocol engine.

This development shallowly embeds the protocol code of the repository
(`src/microblocks-adapter.js`, final snapshot, and `src/uprotocol.js`) in
Lean 4.  Byte buffers are `List Nat` (serial bytes are 0..255); JavaScript
`undefined` array reads are modelled with `List.getD _ _ 0`, which agrees
with the JS code because every comparison the code performs on a missing
byte (`undefined === 0xFB`, `undefined <= 3`, `!undefined`, `undefined | x << 8`)
evaluates the same way as for the byte value 0.  JavaScript 32-bit signed
bitwise arithmetic is modelled with explicit two's complement on `Nat`/`Int`.
-/

namespace MB

/-! ### Bitwise bridge lemmas

The JS code assembles 16-bit sizes and 32-bit integers with `|` and `<<`.
These lemmas relate `Nat.lor`/`Nat.shiftLeft` on in-range operands to plain
arithmetic. -/

theorem lor_shl (k a b : Nat) (ha : a < 2 ^ k) : a ||| (b <<< k) = 2 ^ k * b + a := by
  apply Nat.eq_of_testBit_eq
  intro j
  rw [Nat.testBit_lor, Nat.testBit_shiftLeft]
  by_cases hj : j < k
  · have h2 : 2 ^ k * b = 2 ^ j * (2 ^ (k - j) * b) := by
      rw [← Nat.mul_assoc, ← Nat.pow_add]
      congr 2
      omega
    have h3 : 2 ^ (k - j) * b = 2 * (2 ^ (k - j - 1) * b) := by
      obtain ⟨m, hm⟩ : ∃ m, k - j = m + 1 := ⟨k - j - 1, by omega⟩
      rw [hm, Nat.add_sub_cancel, Nat.pow_succ]
      ring
    have h1 : Nat.testBit (2 ^ k * b + a) j = Nat.testBit a j := by
      rw [Nat.testBit_to_div_mod, Nat.testBit_to_div_mod, h2,
        Nat.mul_add_div (Nat.two_pow_pos j), h3, Nat.add_comm,
        Nat.add_mul_mod_self_left]
    have hnot : ¬ (j ≥ k) := by omega
    rw [h1]
    simp [hnot]
  · have hge : j ≥ k := by omega
    have haj : Nat.testBit a j = false :=
      Nat.testBit_lt_two_pow
        (lt_of_lt_of_le ha (Nat.pow_le_pow_right (by norm_num) hge))
    have h1 : Nat.testBit (2 ^ k * b + a) j = Nat.testBit b (j - k) := by
      have h2 : (2 ^ j : Nat) = 2 ^ k * 2 ^ (j - k) := by
        rw [← Nat.pow_add]
        congr 1
        omega
      rw [Nat.testBit_to_div_mod, Nat.testBit_to_div_mod, h2,
        ← Nat.div_div_eq_div_mul, Nat.mul_add_div (Nat.two_pow_pos k),
        Nat.div_eq_of_lt ha, Nat.add_zero]
    rw [h1, haj]
    simp [hge]

theorem shl_lor_distrib (x y k : Nat) : (x ||| y) <<< k = (x <<< k) ||| (y <<< k) := by
  apply Nat.eq_of_testBit_eq
  intro j
  rw [Nat.testBit_shiftLeft, Nat.testBit_lor, Nat.testBit_lor,
    Nat.testBit_shiftLeft, Nat.testBit_shiftLeft]
  by_cases h : j ≥ k
  · simp [h]
  · simp [h]

/-- Reassembling a 16-bit little-endian size: `lo | hi << 8` on bytes. -/
theorem lor_byte16 (a b : Nat) (ha : a < 256) : a ||| (b <<< 8) = a + 256 * b := by
  have h := lor_shl 8 a b (by norm_num [ha])
  omega

/-- Reassembling a 32-bit little-endian integer:
`(b3 << 24) | (b2 << 16) | (b1 << 8) | b0` on bytes. -/
theorem lor_byte32 (b0 b1 b2 b3 : Nat) (h0 : b0 < 256) (h1 : b1 < 256)
    (h2 : b2 < 256) :
    ((b3 <<< 24) ||| (b2 <<< 16)) ||| (b1 <<< 8) ||| b0 =
      b0 + 256 * b1 + 65536 * b2 + 16777216 * b3 := by
  have e24 : b3 <<< 24 = (b3 <<< 8) <<< 16 := by
    rw [← Nat.shiftLeft_add]
  have step1 : (b3 <<< 24) ||| (b2 <<< 16) = (b2 ||| (b3 <<< 8)) <<< 16 := by
    rw [e24, shl_lor_distrib b2 (b3 <<< 8) 16, Nat.lor_comm]
  have e16 : (b2 ||| (b3 <<< 8)) <<< 16 = ((b2 ||| (b3 <<< 8)) <<< 8) <<< 8 := by
    rw [← Nat.shiftLeft_add]
  have step2 : ((b2 ||| (b3 <<< 8)) <<< 16) ||| (b1 <<< 8) =
      (b1 ||| ((b2 ||| (b3 <<< 8)) <<< 8)) <<< 8 := by
    rw [e16, shl_lor_distrib b1 ((b2 ||| (b3 <<< 8)) <<< 8) 8, Nat.lor_comm]
  have v2 : b2 ||| (b3 <<< 8) = 256 * b3 + b2 := lor_shl 8 b2 b3 (by norm_num [h2])
  have v1 : b1 ||| ((b2 ||| (b3 <<< 8)) <<< 8) = 256 * (b2 ||| (b3 <<< 8)) + b1 :=
    lor_shl 8 b1 _ (by norm_num [h1])
  have v0 : b0 ||| ((b1 ||| ((b2 ||| (b3 <<< 8)) <<< 8)) <<< 8) =
      256 * (b1 ||| ((b2 ||| (b3 <<< 8)) <<< 8)) + b0 :=
    lor_shl 8 b0 _ (by norm_num [h0])
  calc ((b3 <<< 24) ||| (b2 <<< 16)) ||| (b1 <<< 8) ||| b0
      = b0 ||| (((b3 <<< 24) ||| (b2 <<< 16)) ||| (b1 <<< 8)) := Nat.lor_comm _ _
    _ = b0 ||| ((b1 ||| ((b2 ||| (b3 <<< 8)) <<< 8)) <<< 8) := by rw [step1, step2]
    _ = 256 * (b1 ||| ((b2 ||| (b3 <<< 8)) <<< 8)) + b0 := v0
    _ = 256 * (256 * (b2 ||| (b3 <<< 8)) + b1) + b0 := by rw [v1]
    _ = 256 * (256 * (256 * b3 + b2) + b1) + b0 := by rw [v2]
    _ = b0 + 256 * b1 + 65536 * b2 + 16777216 * b3 := by ring

/-! ### The adapter stream framer (`MicroBlocksAdapter.processData`)

`processData(serialPort)` repeatedly examines `serialPort.buffer`:
- first byte `0xFB`: a long message; if `dataSize + 5` bytes are buffered it
  dispatches on the opcode (varName / variableValue / broadcast / outputValue),
  removes `5 + dataSize` bytes and recurses; otherwise it returns (waits);
- first byte `0xFA`: a short message, removes 3 bytes and recurses;
- otherwise it drops everything before the next `0xFB` (or empties the buffer)
  and recurses.

The embedding records every completed long frame as an `RxFrame`
(the opcode, object id and the `dataSize` payload bytes the dispatch reads);
short frames are consumed without any dispatch, exactly as in the source. -/

/-- One long frame as decoded by `processData`. -/
structure RxFrame where
  opCode : Nat
  objectId : Nat
  data : List Nat
  deriving Repr, DecidableEq

/-- `const dataSize = serialPort.buffer[3] | serialPort.buffer[4] << 8;`
(a missing byte is `undefined`, which the JS bitwise operators coerce to 0). -/
def dsz (buf : List Nat) : Nat := buf.getD 3 0 ||| (buf.getD 4 0 <<< 8)

/-- Fuel-indexed recursion for `processData`.  Every recursive call removes at
least one buffered byte, so `buf.length` fuel always suffices
(`processDataF_congr`); the fuel only makes the definition structural. -/
def processDataF : Nat → List Nat → List RxFrame × List Nat
  | 0, buf => ([], buf)
  | fuel + 1, buf =>
    if buf.getD 0 0 = 0xFB then
      if dsz buf + 5 ≤ buf.length then
        let r := processDataF fuel (buf.drop (5 + dsz buf))
        (⟨buf.getD 1 0, buf.getD 2 0, (buf.drop 5).take (dsz buf)⟩ :: r.1, r.2)
      else ([], buf)
    else if buf.getD 0 0 = 0xFA then
      processDataF fuel (buf.drop 3)
    else
      if buf.indexOf 0xFB < buf.length then
        processDataF fuel (buf.drop (buf.indexOf 0xFB))
      else ([], [])

/-- `processData` on a buffer: the frames dispatched and the leftover buffer. -/
def processData (buf : List Nat) : List RxFrame × List Nat :=
  processDataF buf.length buf

theorem indexOf_cons_of_ne {x : Nat} (xs : List Nat) (h : x ≠ 0xFB) :
    (x :: xs).indexOf 0xFB = xs.indexOf 0xFB + 1 := by
  rw [List.indexOf_cons]
  have hb : (x == 0xFB) = false := beq_false_of_ne h
  rw [hb]
  rfl

theorem processDataF_congr : ∀ (f g : Nat) (buf : List Nat),
    buf.length ≤ f → buf.length ≤ g → processDataF f buf = processDataF g buf := by
  intro f
  induction f with
  | zero =>
    intro g buf hf hg
    have hb : buf = [] := List.length_eq_zero.mp (by omega)
    subst hb
    cases g with
    | zero => rfl
    | succ g => rfl
  | succ f ih =>
    intro g buf hf hg
    cases g with
    | zero =>
      have hb : buf = [] := List.length_eq_zero.mp (by omega)
      subst hb
      rfl
    | succ g =>
      cases buf with
      | nil => rfl
      | cons a l =>
        simp only [processDataF]
        by_cases h1 : (a :: l).getD 0 0 = 0xFB
        · rw [if_pos h1, if_pos h1]
          by_cases h2 : dsz (a :: l) + 5 ≤ (a :: l).length
          · rw [if_pos h2, if_pos h2]
            have hrec : processDataF f ((a :: l).drop (5 + dsz (a :: l))) =
                processDataF g ((a :: l).drop (5 + dsz (a :: l))) := by
              apply ih
              · simp only [List.length_drop, List.length_cons] at *
                omega
              · simp only [List.length_drop, List.length_cons] at *
                omega
            rw [hrec]
          · rw [if_neg h2, if_neg h2]
        · rw [if_neg h1, if_neg h1]
          by_cases h2 : (a :: l).getD 0 0 = 0xFA
          · rw [if_pos h2, if_pos h2]
            apply ih
            · simp only [List.length_drop, List.length_cons] at *
              omega
            · simp only [List.length_drop, List.length_cons] at *
              omega
          · rw [if_neg h2, if_neg h2]
            by_cases h3 : (a :: l).indexOf 0xFB < (a :: l).length
            · rw [if_pos h3, if_pos h3]
              have ha : a ≠ 0xFB := by
                intro hcon
                apply h1
                simp [hcon, List.getD]
              have hi : (a :: l).indexOf 0xFB = l.indexOf 0xFB + 1 :=
                indexOf_cons_of_ne l ha
              apply ih
              · simp only [List.length_drop, List.length_cons] at *
                omega
              · simp only [List.length_drop, List.length_cons] at *
                omega
            · rw [if_neg h3, if_neg h3]

/-- One-step unfolding of `processData`, mirroring the body of the JS
function. -/
theorem processData_eq (buf : List Nat) :
    processData buf =
      if buf.getD 0 0 = 0xFB then
        if dsz buf + 5 ≤ buf.length then
          ((⟨buf.getD 1 0, buf.getD 2 0, (buf.drop 5).take (dsz buf)⟩ : RxFrame) ::
            (processData (buf.drop (5 + dsz buf))).1,
           (processData (buf.drop (5 + dsz buf))).2)
        else ([], buf)
      else if buf.getD 0 0 = 0xFA then processData (buf.drop 3)
      else if buf.indexOf 0xFB < buf.length then
        processData (buf.drop (buf.indexOf 0xFB))
      else ([], []) := by
  cases buf with
  | nil => rfl
  | cons a l =>
    show processDataF (l.length + 1) (a :: l) = _
    simp only [processDataF]
    by_cases h1 : (a :: l).getD 0 0 = 0xFB
    · rw [if_pos h1, if_pos h1]
      by_cases h2 : dsz (a :: l) + 5 ≤ (a :: l).length
      · rw [if_pos h2, if_pos h2]
        have hrec : processDataF l.length ((a :: l).drop (5 + dsz (a :: l))) =
            processData ((a :: l).drop (5 + dsz (a :: l))) := by
          apply processDataF_congr
          · simp only [List.length_drop, List.length_cons]
            omega
          · exact Nat.le_refl _
        rw [hrec]
      · rw [if_neg h2, if_neg h2]
    · rw [if_neg h1, if_neg h1]
      by_cases h2 : (a :: l).getD 0 0 = 0xFA
      · rw [if_pos h2, if_pos h2]
        apply processDataF_congr
        · simp only [List.length_drop, List.length_cons]
          omega
        · exact Nat.le_refl _
      · rw [if_neg h2, if_neg h2]
        by_cases h3 : (a :: l).indexOf 0xFB < (a :: l).length
        · rw [if_pos h3, if_pos h3]
          have ha : a ≠ 0xFB := by
            intro hcon
            apply h1
            simp [hcon, List.getD]
          have hi : (a :: l).indexOf 0xFB = l.indexOf 0xFB + 1 :=
            indexOf_cons_of_ne l ha
          apply processDataF_congr
          · simp only [List.length_drop, List.length_cons]
            omega
          · exact Nat.le_refl _
        · rw [if_neg h3, if_neg h3]

theorem processData_nil : processData [] = ([], []) := rfl

/-- One `serialPort.on('data', ...)` event: the chunk is appended to
`serialPort.buffer` and `processData` reruns; emitted frames accumulate. -/
def feedStep (acc : List RxFrame × List Nat) (c : List Nat) : List RxFrame × List Nat :=
  let r := processData (acc.2 ++ c)
  (acc.1 ++ r.1, r.2)

/-- Delivering a list of byte chunks to a fresh session buffer. -/
def feedChunks (cs : List (List Nat)) : List RxFrame × List Nat :=
  cs.foldl feedStep ([], [])

/-! ### Wire frames and their serialization (spec §6 wire format)

A short frame is `[0xFA, opcode, objectId]`; a long frame is
`[0xFB, opcode, objectId, sizeLow, sizeHigh, ...payload]` where the 16-bit
little-endian size counts the payload bytes (the `0xFE` terminator, when
present, is part of the payload bytes counted by the size). -/

inductive Frame
  | short (op id : Nat)
  | long (op id : Nat) (data : List Nat)
  deriving Repr, DecidableEq

def encodeFrame : Frame → List Nat
  | .short op id => [0xFA, op, id]
  | .long op id data =>
    0xFB :: op :: id :: data.length % 256 :: (data.length / 256) % 256 :: data

def encodeFrames (fs : List Frame) : List Nat := (fs.map encodeFrame).flatten

/-- A frame the framer can parse back: a long frame's size must fit in the
two size bytes. -/
def frameOk : Frame → Bool
  | .short _ _ => true
  | .long _ _ data => data.length < 65536

def framesOk (fs : List Frame) : Bool := fs.all frameOk

/-- The `RxFrame`s `processData` dispatches for a frame sequence: exactly the
long frames, in order (short frames carry no payload and are dropped without
dispatch by `processData`). -/
def longsOf : List Frame → List RxFrame
  | [] => []
  | .short _ _ :: fs => longsOf fs
  | .long op id data :: fs => ⟨op, id, data⟩ :: longsOf fs

/-- Split a frame sequence at stream-byte position `n`: the frames wholly
contained in the first `n` bytes, the remaining frames, and the byte offset
into the first remaining frame. -/
def cut : List Frame → Nat → List Frame × List Frame × Nat
  | [], _ => ([], [], 0)
  | f :: fs, n =>
    if (encodeFrame f).length ≤ n then
      let r := cut fs (n - (encodeFrame f).length)
      (f :: r.1, r.2.1, r.2.2)
    else ([], f :: fs, n)

def isLongHead : List Frame → Bool
  | Frame.long _ _ _ :: _ => true
  | _ => false

/-- Stream position `n` is an acceptable chunk boundary: it does not fall
strictly inside a 3-byte short frame. -/
def boundaryOk (fs : List Frame) (n : Nat) : Bool :=
  (cut fs n).2.2 == 0 || isLongHead (cut fs n).2.1

theorem encodeFrames_nil : encodeFrames [] = [] := rfl

theorem encodeFrames_cons (f : Frame) (fs : List Frame) :
    encodeFrames (f :: fs) = encodeFrame f ++ encodeFrames fs := by
  simp [encodeFrames]

theorem encodeFrames_append (a b : List Frame) :
    encodeFrames (a ++ b) = encodeFrames a ++ encodeFrames b := by
  simp [encodeFrames]

theorem encodeFrame_len_short (op id : Nat) :
    (encodeFrame (.short op id)).length = 3 := rfl

theorem encodeFrame_len_long (op id : Nat) (data : List Nat) :
    (encodeFrame (.long op id data)).length = 5 + data.length := by
  simp [encodeFrame]
  omega

theorem encodeFrame_len_pos (f : Frame) : 3 ≤ (encodeFrame f).length := by
  cases f with
  | short op id => simp [encodeFrame]
  | long op id data =>
    simp only [encodeFrame, List.length_cons]
    omega

theorem longsOf_append (a b : List Frame) :
    longsOf (a ++ b) = longsOf a ++ longsOf b := by
  induction a with
  | nil => rfl
  | cons f fs ih =>
    cases f with
    | short op id => simpa [longsOf] using ih
    | long op id data => simpa [longsOf] using ih

theorem cut_parts : ∀ (fs : List Frame) (n : Nat),
    (cut fs n).1 ++ (cut fs n).2.1 = fs := by
  intro fs
  induction fs with
  | nil => intro n; rfl
  | cons f fs ih =>
    intro n
    by_cases h : (encodeFrame f).length ≤ n
    · simp only [cut, if_pos h, List.cons_append]
      rw [ih]
    · simp [cut, if_neg h]

theorem cut_rem_lt : ∀ (fs : List Frame) (n : Nat) (f : Frame) (l : List Frame),
    (cut fs n).2.1 = f :: l → (cut fs n).2.2 < (encodeFrame f).length := by
  intro fs
  induction fs with
  | nil => intro n f l h; simp [cut] at h
  | cons g fs ih =>
    intro n f l h
    by_cases hg : (encodeFrame g).length ≤ n
    · simp only [cut, if_pos hg] at h ⊢
      exact ih _ f l h
    · simp only [cut, if_neg hg] at h ⊢
      injection h with h1 h2
      subst h1
      omega

theorem cut_rem_nil : ∀ (fs : List Frame) (n : Nat),
    (cut fs n).2.1 = [] → (cut fs n).2.2 = 0 := by
  intro fs
  induction fs with
  | nil => intro n _; rfl
  | cons g fs ih =>
    intro n h
    by_cases hg : (encodeFrame g).length ≤ n
    · simp only [cut, if_pos hg] at h ⊢
      exact ih _ h
    · simp [cut, if_neg hg] at h

theorem cut_len : ∀ (fs : List Frame) (n : Nat),
    n ≤ (encodeFrames fs).length →
    (encodeFrames (cut fs n).1).length + (cut fs n).2.2 = n := by
  intro fs
  induction fs with
  | nil =>
    intro n hn
    simp [encodeFrames] at hn
    simp [cut, encodeFrames, hn]
  | cons f fs ih =>
    intro n hn
    by_cases hf : (encodeFrame f).length ≤ n
    · simp only [cut, if_pos hf]
      rw [encodeFrames_cons]
      simp only [List.length_append]
      have hrec := ih (n - (encodeFrame f).length)
        (by rw [encodeFrames_cons] at hn; simp [List.length_append] at hn; omega)
      omega
    · simp only [cut, if_neg hf]
      simp [encodeFrames]

theorem cut_compose : ∀ (fs : List Frame) (n m : Nat),
    cut fs (n + m) =
      ((cut fs n).1 ++ (cut (cut fs n).2.1 ((cut fs n).2.2 + m)).1,
       (cut (cut fs n).2.1 ((cut fs n).2.2 + m)).2) := by
  intro fs
  induction fs with
  | nil => intro n m; rfl
  | cons f fs ih =>
    intro n m
    by_cases hf : (encodeFrame f).length ≤ n
    · have hf2 : (encodeFrame f).length ≤ n + m := by omega
      simp only [cut, if_pos hf, if_pos hf2, List.cons_append]
      have he : n + m - (encodeFrame f).length = (n - (encodeFrame f).length) + m := by
        omega
      rw [he, ih]
    · simp only [cut, if_neg hf]
      rfl

theorem boundaryOk_compose (fs : List Frame) (n m : Nat) :
    boundaryOk fs (n + m) =
      boundaryOk (cut fs n).2.1 ((cut fs n).2.2 + m) := by
  unfold boundaryOk
  rw [cut_compose]

theorem cut_total : ∀ (fs : List Frame),
    cut fs (encodeFrames fs).length = (fs, [], 0) := by
  intro fs
  induction fs with
  | nil => rfl
  | cons f fs ih =>
    rw [encodeFrames_cons]
    have hlen : (encodeFrame f).length ≤ (encodeFrame f ++ encodeFrames fs).length := by
      simp
    simp only [cut, if_pos hlen]
    have he : (encodeFrame f ++ encodeFrames fs).length - (encodeFrame f).length =
        (encodeFrames fs).length := by
      simp
    rw [he, ih]

theorem getD_take_lt {l : List Nat} {n i : Nat} (h : i < n) :
    (l.take n).getD i 0 = l.getD i 0 := by
  rw [List.getD_eq_getElem?_getD, List.getD_eq_getElem?_getD,
    List.getElem?_take_of_lt h]

theorem take_append_ge {l1 l2 : List Nat} {n : Nat} (h : l1.length <= n) :
    (l1 ++ l2).take n = l1 ++ l2.take (n - l1.length) := by
  rw [List.take_append_eq_append_take, List.take_of_length_le h]

theorem take_add_split (s : List Nat) (t k : Nat) :
    s.take (t + k) = s.take t ++ (s.drop t).take k := by
  conv_lhs => rw [← List.take_append_drop t (s.take (t + k))]
  congr 1
  · rw [List.take_take]
    congr 1
    omega
  · rw [List.take_drop]

theorem dsz_take {l : List Nat} {n : Nat} (h : 5 <= n) : dsz (l.take n) = dsz l := by
  unfold dsz
  rw [getD_take_lt (by omega), getD_take_lt (by omega)]

theorem dsz_of_size_bytes (a b c : Nat) (L : Nat) (l : List Nat) (hL : L < 65536) :
    dsz (a :: b :: c :: L % 256 :: (L / 256) % 256 :: l) = L := by
  have h : dsz (a :: b :: c :: L % 256 :: (L / 256) % 256 :: l) =
      L % 256 ||| (((L / 256) % 256) <<< 8) := rfl
  rw [h, lor_byte16 _ _ (Nat.mod_lt _ (by norm_num))]
  omega

/-- A complete short frame at the head of the buffer is discarded (3 bytes,
no dispatch) and parsing continues. -/
theorem processData_short_frame (op id : Nat) (r : List Nat) :
    processData (0xFA :: op :: id :: r) = processData r := by
  rw [processData_eq]
  have h1 : (0xFA :: op :: id :: r).getD 0 0 = 0xFA := rfl
  have h2 : (0xFA :: op :: id :: r).drop 3 = r := rfl
  rw [h1, h2]
  norm_num

/-- A complete long frame at the head of the buffer is dispatched and
parsing continues after its `5 + dataSize` bytes. -/
theorem processData_long_frame (op id : Nat) (data r : List Nat)
    (hL : data.length < 65536) :
    processData (0xFB :: op :: id :: data.length % 256 ::
        (data.length / 256) % 256 :: (data ++ r)) =
      ((⟨op, id, data⟩ : RxFrame) :: (processData r).1, (processData r).2) := by
  set buf := 0xFB :: op :: id :: data.length % 256 ::
    (data.length / 256) % 256 :: (data ++ r) with hbuf
  have hdsz : dsz buf = data.length := dsz_of_size_bytes _ _ _ _ _ hL
  have h0 : buf.getD 0 0 = 0xFB := rfl
  have hlen : buf.length = 5 + data.length + r.length := by
    simp [hbuf]
    omega
  have hcomplete : dsz buf + 5 <= buf.length := by
    rw [hdsz, hlen]
    omega
  have h5 : buf.drop 5 = data ++ r := rfl
  have hdropped : buf.drop (5 + dsz buf) = r := by
    rw [hdsz, ← List.drop_drop, h5, List.drop_left]
  have hpayload : (buf.drop 5).take (dsz buf) = data := by
    rw [h5, hdsz, List.take_left]
  have h1 : buf.getD 1 0 = op := rfl
  have h2 : buf.getD 2 0 = id := rfl
  rw [processData_eq, if_pos h0, if_pos hcomplete, hdropped, hpayload, h1, h2]

/-- An incomplete long frame stays buffered and nothing is emitted. -/
theorem processData_wait (b : List Nat) (h1 : b.getD 0 0 = 0xFB)
    (h2 : ¬ (dsz b + 5 <= b.length)) : processData b = ([], b) := by
  rw [processData_eq, if_pos h1, if_neg h2]

/-- Buffer starting with an unrecognized marker: resynchronize at the next
`0xFB`, or discard everything. -/
theorem processData_desync (b : List Nat) (hfb : b.getD 0 0 ≠ 0xFB)
    (hfa : b.getD 0 0 ≠ 0xFA) :
    processData b =
      if b.indexOf 0xFB < b.length then processData (b.drop (b.indexOf 0xFB))
      else ([], []) := by
  rw [processData_eq, if_neg hfb, if_neg hfa]

/-- Core framer correctness: processing a prefix of a valid frame stream that
ends at an acceptable boundary emits exactly the wholly-delivered long frames
and leaves the partially-delivered head frame buffered (in particular a long
frame whose `dataSize` exceeds the buffered bytes is reported incomplete). -/
theorem processData_take : ∀ (fs : List Frame), framesOk fs = true →
    ∀ n : Nat, boundaryOk fs n = true →
    processData ((encodeFrames fs).take n) =
      (longsOf (cut fs n).1,
       (encodeFrames (cut fs n).2.1).take (cut fs n).2.2) := by
  intro fs
  induction fs with
  | nil =>
    intro _ n _
    simp [encodeFrames, cut, longsOf, processData_nil]
  | cons f fs ih =>
    intro hv n hb
    have hvf : frameOk f = true ∧ framesOk fs = true := by
      simpa [framesOk] using hv
    cases f with
    | short op id =>
      by_cases hn : 3 <= n
      · have hle : (encodeFrame (Frame.short op id)).length <= n := by
          rw [encodeFrame_len_short]
          exact hn
        have hcut : cut (Frame.short op id :: fs) n =
            (Frame.short op id :: (cut fs (n - 3)).1, (cut fs (n - 3)).2) := by
          simp only [cut, encodeFrame_len_short]
          rw [if_pos hn]
        have hbuf : (encodeFrames (Frame.short op id :: fs)).take n =
            0xFA :: op :: id :: (encodeFrames fs).take (n - 3) := by
          rw [encodeFrames_cons, take_append_ge hle, encodeFrame_len_short]
          rfl
        have hb2 : boundaryOk fs (n - 3) = true := by
          unfold boundaryOk at hb ⊢
          rw [hcut] at hb
          exact hb
        rw [hbuf, processData_short_frame, hcut]
        simp only [longsOf]
        exact ih hvf.2 (n - 3) hb2
      · have hlt : ¬ ((encodeFrame (Frame.short op id)).length <= n) := by
          rw [encodeFrame_len_short]
          exact hn
        have hcut : cut (Frame.short op id :: fs) n =
            ([], Frame.short op id :: fs, n) := by
          simp only [cut, encodeFrame_len_short]
          rw [if_neg hn]
        have hn0 : n = 0 := by
          unfold boundaryOk at hb
          rw [hcut] at hb
          simpa [isLongHead] using hb
        subst hn0
        rw [hcut]
        simp [processData_nil, longsOf]
    | long op id data =>
      have hL : data.length < 65536 := by
        simpa [frameOk] using hvf.1
      by_cases hn : 5 + data.length <= n
      · have hle : (encodeFrame (Frame.long op id data)).length <= n := by
          rw [encodeFrame_len_long]
          exact hn
        have hcut : cut (Frame.long op id data :: fs) n =
            (Frame.long op id data :: (cut fs (n - (5 + data.length))).1,
             (cut fs (n - (5 + data.length))).2) := by
          simp only [cut, encodeFrame_len_long]
          rw [if_pos hn]
        have hbuf : (encodeFrames (Frame.long op id data :: fs)).take n =
            0xFB :: op :: id :: data.length % 256 :: (data.length / 256) % 256 ::
              (data ++ (encodeFrames fs).take (n - (5 + data.length))) := by
          rw [encodeFrames_cons, take_append_ge hle, encodeFrame_len_long]
          rfl
        have hb2 : boundaryOk fs (n - (5 + data.length)) = true := by
          unfold boundaryOk at hb ⊢
          rw [hcut] at hb
          exact hb
        have hrec := ih hvf.2 (n - (5 + data.length)) hb2
        rw [hbuf, processData_long_frame op id data _ hL, hrec, hcut]
        simp only [longsOf]
      · have hlt : ¬ ((encodeFrame (Frame.long op id data)).length <= n) := by
          rw [encodeFrame_len_long]
          exact hn
        have hcut : cut (Frame.long op id data :: fs) n =
            ([], Frame.long op id data :: fs, n) := by
          simp only [cut, encodeFrame_len_long]
          rw [if_neg hn]
        rw [hcut]
        simp only [longsOf]
        rcases Nat.eq_zero_or_pos n with hn0 | hpos
        · subst hn0
          simp [processData_nil]
        · set s := encodeFrames (Frame.long op id data :: fs) with hs
          have hsform : s = 0xFB :: op :: id :: data.length % 256 ::
              (data.length / 256) % 256 :: (data ++ encodeFrames fs) := by
            rw [hs, encodeFrames_cons]
            rfl
          have hslen : 5 + data.length <= s.length := by
            rw [hsform]
            simp
            omega
          have hblen : (s.take n).length = n := by
            rw [List.length_take]
            omega
          have h0 : (s.take n).getD 0 0 = 0xFB := by
            rw [getD_take_lt hpos, hsform]
            rfl
          have hwait : ¬ (dsz (s.take n) + 5 <= (s.take n).length) := by
            rw [hblen]
            by_cases h5 : 5 <= n
            · rw [dsz_take h5, hsform, dsz_of_size_bytes _ _ _ _ _ hL]
              omega
            · omega
          rw [processData_wait _ h0 hwait]
  
theorem encodeFrames_eq_nil {fs : List Frame} (h : encodeFrames fs = []) :
    fs = [] := by
  cases fs with
  | nil => rfl
  | cons f l =>
    rw [encodeFrames_cons] at h
    have h3 := encodeFrame_len_pos f
    have h4 := congrArg List.length h
    simp only [List.length_append, List.length_nil] at h4
    omega

/-- Chunked feeding, generalized over a mid-frame starting state: if the
buffer holds the first `t` bytes of the remaining stream (with `t` either 0
or inside the leading long frame), and every chunk boundary is acceptable,
then feeding the rest of the stream in chunks emits exactly the remaining
long frames and drains the buffer. -/
theorem feedAux : ∀ (cs : List (List Nat)) (rem : List Frame) (t : Nat)
    (acc : List RxFrame),
    framesOk rem = true →
    (t = 0 ∨ ∃ op id data l, rem = Frame.long op id data :: l ∧ t < 5 + data.length) →
    cs.flatten = (encodeFrames rem).drop t →
    (∀ k, k ≤ cs.length → boundaryOk rem (t + ((cs.take k).flatten).length) = true) →
    cs.foldl feedStep (acc, (encodeFrames rem).take t) = (acc ++ longsOf rem, []) := by
  intro cs
  induction cs with
  | nil =>
    intro rem t acc hv hinv hflat hbound
    simp only [List.flatten_nil] at hflat
    have hle : (encodeFrames rem).length ≤ t := List.drop_eq_nil_iff.mp hflat.symm
    rcases hinv with h0 | ⟨op, id, data, l, hrem, hlt⟩
    · subst h0
      have hnil : encodeFrames rem = [] := by
        have : (encodeFrames rem).length = 0 := by omega
        exact List.length_eq_zero.mp this
      have hremnil : rem = [] := encodeFrames_eq_nil hnil
      subst hremnil
      simp [longsOf, encodeFrames]
    · exfalso
      subst hrem
      rw [encodeFrames_cons] at hle
      simp only [List.length_append, encodeFrame_len_long] at hle
      omega
  | cons c cs ih =>
    intro rem t acc hv hinv hflat hbound
    have hts : t ≤ (encodeFrames rem).length := by
      rcases hinv with h0 | ⟨op, id, data, l, hrem, hlt⟩
      · omega
      · subst hrem
        rw [encodeFrames_cons]
        have := encodeFrame_len_long op id data
        simp only [List.length_append]
        omega
    simp only [List.flatten_cons] at hflat
    have hclen : t + c.length ≤ (encodeFrames rem).length := by
      have h4 := congrArg List.length hflat
      simp only [List.length_append, List.length_drop] at h4
      omega
    have hc : c = ((encodeFrames rem).drop t).take c.length := by
      rw [← hflat, List.take_left]
    have hcs : cs.flatten = (encodeFrames rem).drop (t + c.length) := by
      have h1 : cs.flatten = ((encodeFrames rem).drop t).drop c.length := by
        rw [← hflat, List.drop_left]
      rw [h1, List.drop_drop]
    have hbuf : (encodeFrames rem).take t ++ c = (encodeFrames rem).take (t + c.length) := by
      conv_lhs => rw [hc]
      rw [take_add_split]
    have hb1 : boundaryOk rem (t + c.length) = true := by
      have h1 := hbound 1 (by simp)
      simpa using h1
    have hM := processData_take rem hv (t + c.length) hb1
    have hparts : (cut rem (t + c.length)).1 ++ (cut rem (t + c.length)).2.1 = rem :=
      cut_parts rem (t + c.length)
    have hvR : framesOk (cut rem (t + c.length)).2.1 = true := by
      have hv2 := hv
      rw [← hparts] at hv2
      simp only [framesOk, List.all_append, Bool.and_eq_true] at hv2
      exact hv2.2
    have hinvR : (cut rem (t + c.length)).2.2 = 0 ∨
        ∃ op id data l, (cut rem (t + c.length)).2.1 = Frame.long op id data :: l ∧
          (cut rem (t + c.length)).2.2 < 5 + data.length := by
      unfold boundaryOk at hb1
      rcases (Bool.or_eq_true _ _).mp hb1 with h | h
      · left
        simpa using h
      · right
        cases hR : (cut rem (t + c.length)).2.1 with
        | nil =>
          rw [hR] at h
          simp [isLongHead] at h
        | cons f l =>
          cases f with
          | short o i =>
            rw [hR] at h
            simp [isLongHead] at h
          | long o i d =>
            refine ⟨o, i, d, l, rfl, ?_⟩
            have hlt := cut_rem_lt rem (t + c.length) _ _ hR
            rw [encodeFrame_len_long] at hlt
            exact hlt
    have hlen2 : (encodeFrames (cut rem (t + c.length)).1).length +
        (cut rem (t + c.length)).2.2 = t + c.length :=
      cut_len rem (t + c.length) hclen
    have hsplit : encodeFrames rem =
        encodeFrames (cut rem (t + c.length)).1 ++
          encodeFrames (cut rem (t + c.length)).2.1 := by
      rw [← encodeFrames_append, hparts]
    have hcsR : cs.flatten =
        (encodeFrames (cut rem (t + c.length)).2.1).drop
          ((cut rem (t + c.length)).2.2) := by
      rw [hcs]
      conv_lhs => rw [hsplit]
      rw [List.drop_append_eq_append_drop]
      have h1 : (encodeFrames (cut rem (t + c.length)).1).drop (t + c.length) = [] := by
        apply List.drop_eq_nil_of_le
        omega
      have h2 : t + c.length - (encodeFrames (cut rem (t + c.length)).1).length =
          (cut rem (t + c.length)).2.2 := by
        omega
      rw [h1, h2]
      simp
    have hboundR : ∀ k, k ≤ cs.length →
        boundaryOk (cut rem (t + c.length)).2.1
          ((cut rem (t + c.length)).2.2 + ((cs.take k).flatten).length) = true := by
      intro k hk
      have h1 := hbound (k + 1) (by simpa using Nat.succ_le_succ hk)
      have h2 : (((c :: cs).take (k + 1)).flatten).length =
          c.length + ((cs.take k).flatten).length := by
        simp [List.take_succ_cons]
      rw [h2] at h1
      have h3 : t + (c.length + ((cs.take k).flatten).length) =
          (t + c.length) + ((cs.take k).flatten).length := by
        omega
      rw [h3, boundaryOk_compose] at h1
      exact h1
    have hstep : feedStep (acc, (encodeFrames rem).take t) c =
        (acc ++ longsOf (cut rem (t + c.length)).1,
         (encodeFrames (cut rem (t + c.length)).2.1).take
           ((cut rem (t + c.length)).2.2)) := by
      simp only [feedStep]
      rw [hbuf, hM]
    rw [List.foldl_cons, hstep]
    rw [ih (cut rem (t + c.length)).2.1 (cut rem (t + c.length)).2.2
      (acc ++ longsOf (cut rem (t + c.length)).1) hvR hinvR hcsR hboundR]
    conv_rhs => rw [← hparts]
    rw [longsOf_append, ← List.append_assoc]

/-- Claim C1, amended.  For every valid frame sequence and every partition of
its serialization into chunks in which no chunk boundary falls strictly
inside a 3-byte short frame, feeding the chunks one at a time to
`processData` (each appended to the session buffer before the parse loop
reruns) emits exactly the long-frame sequence, the same as single-chunk
delivery, each frame exactly once; a long frame whose `dataSize` exceeds the
buffered bytes is held incomplete (`processData_take`/`processData_wait`)
and completed exactly once when the remaining bytes arrive.  The restriction
on short-frame-internal boundaries is forced by the code: on marker `0xFA`
the framer discards 3 bytes even when fewer are buffered (`c1_cex`). -/
theorem c1_processData_chunk_invariance (fs : List Frame) (cs : List (List Nat))
    (hv : framesOk fs = true)
    (hjoin : cs.flatten = encodeFrames fs)
    (hbound : ∀ k, k ≤ cs.length → boundaryOk fs (((cs.take k).flatten).length) = true) :
    feedChunks cs = (longsOf fs, []) ∧
      processData cs.flatten = (longsOf fs, []) := by
  constructor
  · have h := feedAux cs fs 0 [] hv (Or.inl rfl) (by simpa using hjoin)
      (by intro k hk; simpa using hbound k hk)
    simpa [feedChunks] using h
  · rw [hjoin]
    have hbtot : boundaryOk fs (encodeFrames fs).length = true := by
      unfold boundaryOk
      rw [cut_total]
      rfl
    have h := processData_take fs hv (encodeFrames fs).length hbtot
    rw [List.take_length, cut_total] at h
    simpa [longsOf, encodeFrames] using h

/-- Claim C1, counterexample to the unrestricted statement.  The valid
sequence short(0x07, 0xFB) then long(0x15, 0x05, [0x03, 0xFE]) delivered in
one chunk emits the long frame, but split after the short frame's first byte
it emits nothing: the framer discards 3 bytes on seeing `0xFA` alone, then
treats the short frame's remaining bytes as garbage, resynchronizes on the
`0xFB` inside them, and misparses the real frame as an incomplete giant
frame. -/
theorem c1_cex :
    framesOk [Frame.short 0x07 0xFB, Frame.long 0x15 0x05 [0x03, 0xFE]] = true ∧
    [[0xFA], [0x07, 0xFB, 0xFB, 0x15, 0x05, 0x02, 0x00, 0x03, 0xFE]].flatten =
      encodeFrames [Frame.short 0x07 0xFB, Frame.long 0x15 0x05 [0x03, 0xFE]] ∧
    (processData
        ([[0xFA], [0x07, 0xFB, 0xFB, 0x15, 0x05, 0x02, 0x00, 0x03, 0xFE]].flatten)).1 =
      [⟨0x15, 0x05, [0x03, 0xFE]⟩] ∧
    (feedChunks [[0xFA], [0x07, 0xFB, 0xFB, 0x15, 0x05, 0x02, 0x00, 0x03, 0xFE]]).1 = [] := by
  decide

/-- Claim C1 witness: a long frame whose `dataSize` exceeds the bytes of the
first two chunks is completed exactly once by the third, matching
single-chunk delivery. -/
theorem c1_witness :
    framesOk [Frame.long 0x15 0x05 [0x01, 0x2A, 0x00, 0x00, 0x00, 0xFE]] = true ∧
    [[0xFB, 0x15], [0x05, 0x06, 0x00, 0x01, 0x2A], [0x00, 0x00, 0x00, 0xFE]].flatten =
      encodeFrames [Frame.long 0x15 0x05 [0x01, 0x2A, 0x00, 0x00, 0x00, 0xFE]] ∧
    feedChunks [[0xFB, 0x15], [0x05, 0x06, 0x00, 0x01, 0x2A], [0x00, 0x00, 0x00, 0xFE]] =
      ([⟨0x15, 0x05, [0x01, 0x2A, 0x00, 0x00, 0x00, 0xFE]⟩], []) ∧
    processData
        ([[0xFB, 0x15], [0x05, 0x06, 0x00, 0x01, 0x2A], [0x00, 0x00, 0x00, 0xFE]].flatten) =
      ([⟨0x15, 0x05, [0x01, 0x2A, 0x00, 0x00, 0x00, 0xFE]⟩], []) := by
  have h := c1_processData_chunk_invariance
    [Frame.long 0x15 0x05 [0x01, 0x2A, 0x00, 0x00, 0x00, 0xFE]]
    [[0xFB, 0x15], [0x05, 0x06, 0x00, 0x01, 0x2A], [0x00, 0x00, 0x00, 0xFE]]
    (by decide) (by decide) (by decide)
  exact ⟨by decide, by decide, h.1.trans (by decide), h.2.trans (by decide)⟩

/-! ### Typed value codec

`MicroBlocksAdapter.packValue` / `getPayload` / `getPayloadType` from the
adapter and `Protocol.processReturnValue` from uprotocol.js. -/

/-- JavaScript values flowing through the codec (strings as character
codes). -/
inductive JSVal
  | int (v : Int)
  | str (s : List Nat)
  | bool (b : Bool)
  deriving Repr, DecidableEq

/-- The 32-bit two's complement bit pattern of an integer, as produced by
the JS `ToInt32` conversion that `&`, `>>` and `|` perform. -/
def twosComp32 (v : Int) : Nat := (v % 4294967296).toNat

/-- A JS 32-bit bitwise result read back as a signed number. -/
def toInt32 (n : Nat) : Int :=
  if n % 4294967296 < 2147483648 then ((n % 4294967296 : Nat) : Int)
  else ((n % 4294967296 : Nat) : Int) - 4294967296

/-- JS truthiness of the modelled values (used by `value && 1 || 0`). -/
def jsTruthy : JSVal → Bool
  | .int v => v ≠ 0
  | .str s => s ≠ []
  | .bool b => b

/-- `MicroBlocksAdapter.packValue(value, type)`.  Type 1: `Math.floor` is the
identity on the integers modelled here, and `level & 255`,
`(level >> 8) & 255`, `(level >> 16) & 255`, `(level >> 24) & 255` on a
32-bit signed value are the base-256 digits of its two's complement.
Type 2 prepends tag 2 to the character codes; type 3 packs
`[3, value && 1 || 0]`.  `none` models the JS `undefined` returned for other
type tags (the JS NaN garbage produced by mismatched value/type pairs is not
modelled; no caller produces such pairs). -/
def packValue (value : JSVal) (t : Int) : Option (List Nat) :=
  if t = 1 then
    match value with
    | .int v =>
      some [1, twosComp32 v % 256, twosComp32 v / 256 % 256,
        twosComp32 v / 65536 % 256, twosComp32 v / 16777216 % 256]
    | _ => none
  else if t = 2 then
    match value with
    | .str s => some (2 :: s)
    | _ => none
  else if t = 3 then
    some [3, if jsTruthy value then 1 else 0]
  else none

/-- `MicroBlocksAdapter.packSetVariableMessage(varId, value, type)`:
`[0xFB, 0x08, varId, size & 255, (size >> 8) & 255, ...packValue, 0xFE]`
where size counts the packed value plus the `0xFE` terminator. -/
def packSetVariableMessage (varId : Nat) (value : JSVal) (t : Int) :
    Option (List Nat) :=
  (packValue value t).map (fun pv =>
    let data := pv ++ [0xFE]
    0xFB :: 0x08 :: varId :: (data.length &&& 255) ::
      ((data.length >>> 8) &&& 255) :: data)

/-- JS indexing `buffer[i]`: the byte, or `none` for `undefined`. -/
def byteAt (l : List Nat) (i : Nat) : Option Nat :=
  match l, i with
  | [], _ => none
  | a :: _, 0 => some a
  | _ :: l, n + 1 => byteAt l n

/-- `MicroBlocksAdapter.getPayloadType(buffer)`:
`buffer[5] <= 3 ? buffer[5] : -1` (for an absent byte, `undefined <= 3` is
false, giving -1). -/
def getPayloadType (buffer : List Nat) : Int :=
  match byteAt buffer 5 with
  | some b => if b ≤ 3 then (b : Int) else -1
  | none => -1

/-- `MicroBlocksAdapter.getPayload(buffer, dataSize)`.  Tag -1 (no tag):
the raw string `buffer.slice(5, 5 + dataSize)`; tag 1: the 32-bit signed
integer `(buffer[9] << 24) | (buffer[8] << 16) | (buffer[7] << 8) |
buffer[6]`; tag 2: the string `buffer.slice(6, 5 + dataSize)`; tag 3:
`buffer[6] === 1`.  Tag 0 falls through every branch: the JS function
returns `undefined`, modelled as `none`. -/
def getPayload (buffer : List Nat) (dataSize : Nat) : Option JSVal :=
  let typeByte := getPayloadType buffer
  if typeByte = -1 then
    some (.str ((buffer.drop 5).take dataSize))
  else if typeByte = 1 then
    some (.int (toInt32 (((buffer.getD 9 0 <<< 24) ||| (buffer.getD 8 0 <<< 16)) |||
      (buffer.getD 7 0 <<< 8) ||| buffer.getD 6 0)))
  else if typeByte = 2 then
    some (.str ((buffer.drop 6).take (5 + dataSize - 6)))
  else if typeByte = 3 then
    some (.bool (buffer.getD 6 0 == 1))
  else none

/-- JS loose equality `array == 1` (Array → String → Number coercion):
true exactly for the one-element array `[1]`. -/
def listEqOne (l : List Nat) : Bool :=
  match l with
  | [x] => x == 1
  | _ => false

/-- `Protocol.processReturnValue(rawData)` from uprotocol.js.  Type 1 reads
four little-endian bytes after the tag; type 2 takes `rawData.slice(1)`
whole; type 3 computes `rawData.slice(1) == 1` (JS loose equality on an
array).  Other tags leave `value` undefined, modelled as `none`. -/
def processReturnValue (rawData : List Nat) : Option JSVal :=
  if rawData.getD 0 0 = 1 then
    some (.int (toInt32 (((rawData.getD 4 0 <<< 24) ||| (rawData.getD 3 0 <<< 16)) |||
      (rawData.getD 2 0 <<< 8) ||| rawData.getD 1 0)))
  else if rawData.getD 0 0 = 2 then
    some (.str (rawData.drop 1))
  else if rawData.getD 0 0 = 3 then
    some (.bool (listEqOne (rawData.drop 1)))
  else none

theorem twosComp32_lt (v : Int) : twosComp32 v < 4294967296 := by
  unfold twosComp32
  have h1 : 0 ≤ v % 4294967296 := Int.emod_nonneg v (by norm_num)
  have h2 : v % 4294967296 < 4294967296 := Int.emod_lt_of_pos v (by norm_num)
  omega

/-- Packing an in-range signed 32-bit integer into its two's-complement
bytes and reassembling them with `(b3 << 24) | (b2 << 16) | (b1 << 8) | b0`
gives the integer back. -/
theorem int32_roundtrip (v : Int) (h1 : -2147483648 ≤ v) (h2 : v < 2147483648) :
    toInt32 ((((twosComp32 v / 16777216 % 256) <<< 24) |||
        ((twosComp32 v / 65536 % 256) <<< 16)) |||
      ((twosComp32 v / 256 % 256) <<< 8) ||| twosComp32 v % 256) = v := by
  have hul : twosComp32 v < 4294967296 := twosComp32_lt v
  have hb := lor_byte32 (twosComp32 v % 256) (twosComp32 v / 256 % 256)
    (twosComp32 v / 65536 % 256) (twosComp32 v / 16777216 % 256)
    (Nat.mod_lt _ (by norm_num)) (Nat.mod_lt _ (by norm_num))
    (Nat.mod_lt _ (by norm_num))
  rw [hb]
  have hsum : twosComp32 v % 256 + 256 * (twosComp32 v / 256 % 256) +
      65536 * (twosComp32 v / 65536 % 256) +
      16777216 * (twosComp32 v / 16777216 % 256) = twosComp32 v := by
    omega
  rw [hsum]
  unfold toInt32
  have hmod : twosComp32 v % 4294967296 = twosComp32 v := Nat.mod_eq_of_lt hul
  rw [hmod]
  have huv : (twosComp32 v : Int) = v % 4294967296 := by
    unfold twosComp32
    have h3 : 0 ≤ v % 4294967296 := Int.emod_nonneg v (by norm_num)
    omega
  by_cases hc : twosComp32 v < 2147483648
  · rw [if_pos hc]
    omega
  · rw [if_neg hc]
    omega

/-- The `size & 255` / `(size >> 8) & 255` bytes written by the packers
reassemble to the size for sizes below 2^16. -/
theorem size_bytes_roundtrip (n : Nat) (h : n < 65536) :
    (n &&& 255) ||| (((n >>> 8) &&& 255) <<< 8) = n := by
  have h1 : n &&& 255 = n % 256 := by
    have h3 := Nat.and_pow_two_sub_one_eq_mod n 8
    norm_num at h3
    exact h3
  have h2 : (n >>> 8) &&& 255 = n / 256 % 256 := by
    have h3 := Nat.and_pow_two_sub_one_eq_mod (n >>> 8) 8
    norm_num at h3
    rw [h3, Nat.shiftRight_eq_div_pow]
  rw [h1, h2, lor_byte16 _ _ (Nat.mod_lt _ (by norm_num))]
  omega

/-- Evaluation of `getPayload` on a buffer whose first payload byte is the
string tag 2. -/
theorem getPayload_tag2 (b0 b1 b2 b3 b4 : Nat) (rest : List Nat) (dataSize : Nat) :
    getPayload (b0 :: b1 :: b2 :: b3 :: b4 :: 2 :: rest) dataSize =
      some (.str (rest.take (5 + dataSize - 6))) := rfl

set_option maxHeartbeats 1000000 in
/-- Claim C2, amended.  Over the full signed 32-bit range an Integer
round-trips exactly through both decode paths (`getPayload` on the
`packSetVariableMessage` frame, and `processReturnValue` on the typed
payload with its `0xFE` terminator), and a Boolean round-trips through
`getPayload`; but a String decodes to the original with the `0xFE`
terminator appended (both decoders include the terminator byte:
`getPayload` slices `(6, 5 + dataSize)` and `processReturnValue` takes all
of `rawData.slice(1)`), and `processReturnValue` decodes the Boolean
payload to `false` for both inputs, because `rawData.slice(1) == 1`
compares the two-element array `[flag, 0xFE]` against 1. -/
theorem c2_value_roundtrip (varId : Nat) (v : Int) (b : Bool) (s : List Nat)
    (hv1 : -2147483648 ≤ v) (hv2 : v < 2147483648) (hs : s.length < 65534) :
    (packSetVariableMessage varId (.int v) 1).bind (fun f => getPayload f (dsz f)) =
        some (.int v) ∧
    (packSetVariableMessage varId (.bool b) 3).bind (fun f => getPayload f (dsz f)) =
        some (.bool b) ∧
    (packSetVariableMessage varId (.str s) 2).bind (fun f => getPayload f (dsz f)) =
        some (.str (s ++ [0xFE])) ∧
    (packValue (.int v) 1).map (fun pv => processReturnValue (pv ++ [0xFE])) =
        some (some (.int v)) ∧
    (packValue (.str s) 2).map (fun pv => processReturnValue (pv ++ [0xFE])) =
        some (some (.str (s ++ [0xFE]))) ∧
    (packValue (.bool b) 3).map (fun pv => processReturnValue (pv ++ [0xFE])) =
        some (some (.bool false)) := by
  refine ⟨?_, ?_, ?_, ?_, ?_, ?_⟩
  · have hframe : packSetVariableMessage varId (.int v) 1 =
        some (0xFB :: 0x08 :: varId :: (6 &&& 255) :: ((6 >>> 8) &&& 255) ::
          [1, twosComp32 v % 256, twosComp32 v / 256 % 256,
           twosComp32 v / 65536 % 256, twosComp32 v / 16777216 % 256, 0xFE]) := rfl
    rw [hframe]
    simp only [Option.some_bind]
    have h1 : dsz (0xFB :: 0x08 :: varId :: (6 &&& 255) :: ((6 >>> 8) &&& 255) ::
          [1, twosComp32 v % 256, twosComp32 v / 256 % 256,
           twosComp32 v / 65536 % 256, twosComp32 v / 16777216 % 256, 0xFE]) =
        (6 &&& 255) ||| (((6 >>> 8) &&& 255) <<< 8) := rfl
    have h2 : (6 &&& 255) ||| (((6 >>> 8) &&& 255) <<< 8) = 6 := by decide
    have hget : getPayload (0xFB :: 0x08 :: varId :: (6 &&& 255) :: ((6 >>> 8) &&& 255) ::
          [1, twosComp32 v % 256, twosComp32 v / 256 % 256,
           twosComp32 v / 65536 % 256, twosComp32 v / 16777216 % 256, 0xFE]) 6 =
        some (.int (toInt32 ((((twosComp32 v / 16777216 % 256) <<< 24) |||
          ((twosComp32 v / 65536 % 256) <<< 16)) |||
          ((twosComp32 v / 256 % 256) <<< 8) ||| twosComp32 v % 256))) := rfl
    rw [h1, h2, hget, int32_roundtrip v hv1 hv2]
  · cases b with
    | true => rfl
    | false => rfl
  · have hframe : packSetVariableMessage varId (.str s) 2 =
        some (0xFB :: 0x08 :: varId :: (((2 :: s) ++ [0xFE]).length &&& 255) ::
          ((((2 :: s) ++ [0xFE]).length >>> 8) &&& 255) :: ((2 :: s) ++ [0xFE])) := rfl
    rw [hframe]
    simp only [Option.some_bind]
    have hlen : ((2 :: s) ++ [0xFE]).length = s.length + 2 := by
      simp
    have hdsz : dsz (0xFB :: 0x08 :: varId :: (((2 :: s) ++ [0xFE]).length &&& 255) ::
          ((((2 :: s) ++ [0xFE]).length >>> 8) &&& 255) :: ((2 :: s) ++ [0xFE])) = s.length + 2 := by
      have h1 : dsz (0xFB :: 0x08 :: varId :: (((2 :: s) ++ [0xFE]).length &&& 255) ::
          ((((2 :: s) ++ [0xFE]).length >>> 8) &&& 255) :: ((2 :: s) ++ [0xFE])) =
          (((2 :: s) ++ [0xFE]).length &&& 255) |||
            (((((2 :: s) ++ [0xFE]).length >>> 8) &&& 255) <<< 8) := rfl
      rw [h1, hlen, size_bytes_roundtrip _ (by omega)]
    rw [hdsz]
    have hshape : (0xFB :: 0x08 :: varId :: (((2 :: s) ++ [0xFE]).length &&& 255) ::
          ((((2 :: s) ++ [0xFE]).length >>> 8) &&& 255) :: ((2 :: s) ++ [0xFE])) =
        0xFB :: 0x08 :: varId :: (((2 :: s) ++ [0xFE]).length &&& 255) ::
          ((((2 :: s) ++ [0xFE]).length >>> 8) &&& 255) :: 2 :: (s ++ [0xFE]) := rfl
    rw [hshape, getPayload_tag2]
    have harith : 5 + (s.length + 2) - 6 = s.length + 1 := by
      omega
    rw [harith, List.take_of_length_le (by simp)]
  · have hpv : packValue (.int v) 1 =
        some [1, twosComp32 v % 256, twosComp32 v / 256 % 256,
          twosComp32 v / 65536 % 256, twosComp32 v / 16777216 % 256] := rfl
    rw [hpv]
    simp only [Option.map_some']
    have hget : processReturnValue
        ([1, twosComp32 v % 256, twosComp32 v / 256 % 256,
          twosComp32 v / 65536 % 256, twosComp32 v / 16777216 % 256] ++ [0xFE]) =
        some (.int (toInt32 ((((twosComp32 v / 16777216 % 256) <<< 24) |||
          ((twosComp32 v / 65536 % 256) <<< 16)) |||
          ((twosComp32 v / 256 % 256) <<< 8) ||| twosComp32 v % 256))) := rfl
    rw [hget, int32_roundtrip v hv1 hv2]
  · rfl
  · rfl

/-- Claim C2, counterexample to the claim as stated: the one-character
string "A" decodes to "A\xFE" (terminator appended), not "A", and
`processReturnValue` turns the Boolean `true` payload into `false`. -/
theorem c2_cex :
    (packSetVariableMessage 2 (.str [65]) 2).bind (fun f => getPayload f (dsz f)) =
        some (.str [65, 0xFE]) ∧
      some (JSVal.str [65, 0xFE]) ≠ some (JSVal.str [65]) ∧
      (packValue (.bool true) 3).map (fun pv => processReturnValue (pv ++ [0xFE])) =
        some (some (.bool false)) := by
  decide

/-- Claim C2 witness: concrete instances of the amended round-trip. -/
theorem c2_witness :
    (packSetVariableMessage 2 (.int (-5)) 1).bind (fun f => getPayload f (dsz f)) =
        some (.int (-5)) ∧
    (packSetVariableMessage 2 (.bool true) 3).bind (fun f => getPayload f (dsz f)) =
        some (.bool true) ∧
    (packSetVariableMessage 2 (.str [65]) 2).bind (fun f => getPayload f (dsz f)) =
        some (.str [65, 0xFE]) := by
  have h := c2_value_roundtrip 2 (-5) true [65] (by norm_num) (by norm_num) (by decide)
  exact ⟨h.1, h.2.1, h.2.2.1.trans (by decide)⟩

/-- Claim C4: whenever the first buffered byte is neither `0xFA` nor `0xFB`,
`processData` discards exactly the bytes preceding the first occurrence of
`0xFB` and resumes parsing there, or discards the entire buffer when no
`0xFB` is present; in particular the corrupted buffer
`[0x00, 0x00, 0xFB, 0x1D, ...varName frame...]` yields the trailing valid
frame, decoded exactly once. -/
theorem c4_resync (b : List Nat) (hne : b ≠ [])
    (hfa : b.getD 0 0 ≠ 0xFA) (hfb : b.getD 0 0 ≠ 0xFB) :
    (0xFB ∈ b →
      processData b = processData (b.drop (b.indexOf 0xFB)) ∧
        (b.drop (b.indexOf 0xFB)).getD 0 0 = 0xFB) ∧
    (0xFB ∉ b → processData b = ([], [])) ∧
    processData [0x00, 0x00, 0xFB, 0x1D, 0x02, 0x05, 0x00,
        108, 101, 118, 101, 108, 0xFE] =
      ([⟨0x1D, 0x02, [108, 101, 118, 101, 108]⟩], []) := by
  refine ⟨?_, ?_, by decide⟩
  · intro hmem
    have hlt : b.indexOf 0xFB < b.length := List.indexOf_lt_length.mpr hmem
    constructor
    · rw [processData_desync b hfb hfa, if_pos hlt]
    · have hsome : b[b.indexOf 0xFB]? = some 0xFB := by
        rw [List.getElem?_eq_getElem hlt, List.getElem_indexOf hlt]
      rw [List.getD_eq_getElem?_getD, List.getElem?_drop, Nat.add_zero, hsome]
      rfl
  · intro hmem
    have heq : b.indexOf 0xFB = b.length := List.indexOf_eq_length.mpr hmem
    have hge : ¬ (b.indexOf 0xFB < b.length) := by omega
    rw [processData_desync b hfb hfa, if_neg hge]

/-- Claim C4 witness: the spec's concrete corrupted buffer resynchronizes at
index 2, and a buffer with no `0xFB` at all is discarded whole. -/
theorem c4_witness :
    processData [0x00, 0x00, 0xFB, 0x1D, 0x02, 0x05, 0x00,
        108, 101, 118, 101, 108, 0xFE] =
      processData ([0x00, 0x00, 0xFB, 0x1D, 0x02, 0x05, 0x00,
        108, 101, 118, 101, 108, 0xFE].drop 2) ∧
    processData [0x00, 0x01, 0x02] = ([], []) := by
  have h1 := c4_resync [0x00, 0x00, 0xFB, 0x1D, 0x02, 0x05, 0x00,
      108, 101, 118, 101, 108, 0xFE] (by decide) (by decide) (by decide)
  have h2 := c4_resync [0x00, 0x01, 0x02] (by decide) (by decide) (by decide)
  constructor
  · have h3 := (h1.1 (by decide)).1
    have h4 : ([0x00, 0x00, 0xFB, 0x1D, 0x02, 0x05, 0x00,
        108, 101, 118, 101, 108, 0xFE] : List Nat).indexOf 0xFB = 2 := by
      decide
    rw [h4] at h3
    exact h3
  · exact h2.2.1 (by decide)

/-- Claim C5, amended.  For a complete long frame, the first payload byte
`buffer[5]` is taken as a TypedValue tag exactly when it is at most 3
(`getPayloadType` returns it; otherwise -1): tag 1 decodes an integer from
bytes 6-9, tag 2 a string from bytes 6 .. 5+dataSize, tag 3 a boolean from
byte 6, and a byte above 3 makes the whole range [5, 5+dataSize) a raw
string with no tag byte consumed.  The amendment: tag 0, though accepted as
a tag (the raw-string path is not taken), decodes to none of the three —
`getPayload` falls through every branch and returns JS `undefined`. -/
theorem c5_payload_tag (buffer : List Nat) (dataSize b : Nat)
    (hmark : buffer.getD 0 0 = 0xFB) (hds : 1 ≤ dataSize)
    (hcomplete : dataSize + 5 ≤ buffer.length)
    (hb5 : byteAt buffer 5 = some b) :
    (b ≤ 3 → getPayloadType buffer = (b : Int)) ∧
    (¬ b ≤ 3 → getPayloadType buffer = -1 ∧
      getPayload buffer dataSize = some (.str ((buffer.drop 5).take dataSize))) ∧
    (b = 1 → getPayload buffer dataSize =
      some (.int (toInt32 (((buffer.getD 9 0 <<< 24) ||| (buffer.getD 8 0 <<< 16)) |||
        (buffer.getD 7 0 <<< 8) ||| buffer.getD 6 0)))) ∧
    (b = 2 → getPayload buffer dataSize =
      some (.str ((buffer.drop 6).take (5 + dataSize - 6)))) ∧
    (b = 3 → getPayload buffer dataSize = some (.bool (buffer.getD 6 0 == 1))) ∧
    (b = 0 → getPayloadType buffer = 0 ∧ getPayload buffer dataSize = none) := by
  have htype : getPayloadType buffer = (if b ≤ 3 then (b : Int) else -1) := by
    simp only [getPayloadType, hb5]
  refine ⟨?_, ?_, ?_, ?_, ?_, ?_⟩
  · intro hb
    rw [htype, if_pos hb]
  · intro hb
    have ht : getPayloadType buffer = -1 := by
      rw [htype, if_neg hb]
    refine ⟨ht, ?_⟩
    simp [getPayload, ht]
  · intro hb
    subst hb
    have ht : getPayloadType buffer = 1 := by
      rw [htype]
      norm_num
    simp [getPayload, ht]
  · intro hb
    subst hb
    have ht : getPayloadType buffer = 2 := by
      rw [htype]
      norm_num
    simp [getPayload, ht]
  · intro hb
    subst hb
    have ht : getPayloadType buffer = 3 := by
      rw [htype]
      norm_num
    simp [getPayload, ht]
  · intro hb
    subst hb
    have ht : getPayloadType buffer = 0 := by
      rw [htype]
      norm_num
    refine ⟨ht, ?_⟩
    simp [getPayload, ht]

/-- Claim C5, counterexample to the claim as stated: tag byte 0 is treated
as a TypedValue tag (`getPayloadType` returns 0, not -1, and the raw-string
path is not taken) yet decodes no integer, string or boolean: `getPayload`
returns JS `undefined`. -/
theorem c5_cex :
    getPayloadType [0xFB, 0x15, 0x01, 0x02, 0x00, 0x00, 0xFE] = 0 ∧
    getPayload [0xFB, 0x15, 0x01, 0x02, 0x00, 0x00, 0xFE] 2 = none := by
  decide

/-- Claim C5 witness: tag 1 decodes the integer 42 from bytes 6-9 of a
complete long frame, and tag byte 108 makes the payload a raw string. -/
theorem c5_witness :
    getPayloadType [0xFB, 0x15, 0x01, 0x06, 0x00, 1, 42, 0, 0, 0, 0xFE] = 1 ∧
    getPayload [0xFB, 0x15, 0x01, 0x06, 0x00, 1, 42, 0, 0, 0, 0xFE] 6 =
      some (.int 42) ∧
    getPayload [0xFB, 0x1D, 0x02, 0x05, 0x00, 108, 101, 118, 101, 108, 0xFE] 5 =
      some (.str [108, 101, 118, 101, 108]) := by
  have h1 := c5_payload_tag [0xFB, 0x15, 0x01, 0x06, 0x00, 1, 42, 0, 0, 0, 0xFE] 6 1
    (by decide) (by decide) (by decide) (by decide)
  have h2 := c5_payload_tag [0xFB, 0x1D, 0x02, 0x05, 0x00, 108, 101, 118, 101, 108, 0xFE] 5 108
    (by decide) (by decide) (by decide) (by decide)
  refine ⟨h1.1 (by decide), (h1.2.2.1 rfl).trans (by decide), ?_⟩
  exact ((h2.2.1 (by decide)).2).trans (by decide)

/-! ### Device / property synchronization model

Embedding of `MicroBlocksProperty` / `MicroBlocksDevice` /
`MicroBlocksAdapter` state from the adapter's final snapshot.  JS object
mutation becomes explicit state passing.  The host framework
(gateway-addon `Property`/`Device`) is outside the repository and is
modelled at its interface (spec section 6): `super.setValue` caches the
value (the `value` field) and `super.notifyPropertyChanged` reports the
property to the host (the `hostNotifs` log).  Node timers are modelled by
liveness flags/counters: each property's poll `setInterval` handle is
stored in `property.poller` (flag `pollerActive`), while the echo-clear
`setInterval` created inside `notifyPropertyChanged` is anonymous — its
handle is discarded, so `echoTimers` counts live handles and no operation
ever decrements it, exactly as in the source. -/

structure PropM where
  name : List Nat
  varId : Option Nat
  varType : Int
  requestingChange : Bool
  value : JSVal
  pollerActive : Bool
  deriving Repr, DecidableEq

structure DeviceM where
  props : List PropM
  outbound : List (List Nat)
  hostNotifs : List (List Nat × JSVal)
  echoTimers : Nat
  portOpen : Bool
  inRegistry : Bool
  deriving Repr, DecidableEq

/-- `device.properties.get(name)` (property keys are unique Map keys;
modelled as first match in the list). -/
def getProp (d : DeviceM) (n : List Nat) : Option PropM :=
  d.props.find? (fun p => p.name == n)

/-- Mutating the property object `properties.get(n)` in place. -/
def putProp : List PropM → List Nat → (PropM → PropM) → List PropM
  | [], _, _ => []
  | p :: ps, n, f => if p.name == n then f p :: ps else p :: putProp ps n f

/-- JS truthiness of `property.varId`: both `undefined` (id never resolved)
and the number 0 are falsy. -/
def varIdTruthy : Option Nat → Bool
  | some (_ + 1) => true
  | _ => false

/-- Field mutation `property.varType = varType`. -/
def upVarType (t : Int) (q : PropM) : PropM := { q with varType := t }

/-- Field mutation `property.requestingChange = false`. -/
def upClear (q : PropM) : PropM := { q with requestingChange := false }

/-- The property-side effect of `MicroBlocksProperty.setValue`: set
`requestingChange` unless client-only, and cache the value
(`super.setValue`). -/
def upSet (v : JSVal) (c : Bool) (q : PropM) : PropM :=
  { q with requestingChange := if c then q.requestingChange else true, value := v }

/-- Field mutation `property.varId = objectId`. -/
def upVarId (i : Nat) (q : PropM) : PropM := { q with varId := some i }

/-- `MicroBlocksDevice.notifyPropertyChanged(property, clientOnly)`:
`super.notifyPropertyChanged(property)` always reports to the host; then,
unless client-only, a truthy `varId` writes the `setVar` long frame and
starts the anonymous echo-clear `setInterval` (handle discarded).  When
`packValue` meets an unknown `varType` it yields `undefined` and the JS
code throws on `undefined.concat` before writing; modelled as no write. -/
def notifyPropertyChanged (d : DeviceM) (n : List Nat) (clientOnly : Bool) : DeviceM :=
  match getProp d n with
  | none => d
  | some p =>
    let d1 := { d with hostNotifs := d.hostNotifs ++ [(n, p.value)] }
    if ¬ clientOnly ∧ varIdTruthy p.varId then
      match packSetVariableMessage (p.varId.getD 0) p.value p.varType with
      | some m =>
        { d1 with outbound := d1.outbound ++ [m], echoTimers := d1.echoTimers + 1 }
      | none => d1
    else d1

/-- `MicroBlocksProperty.setValue(value, clientOnly)`: set
`requestingChange` unless client-only, cache the value (`super.setValue`),
then `this.device.notifyPropertyChanged(this, clientOnly)`. -/
def setValue (d : DeviceM) (n : List Nat) (v : JSVal) (clientOnly : Bool) : DeviceM :=
  match getProp d n with
  | none => d
  | some _ =>
    notifyPropertyChanged { d with props := putProp d.props n (upSet v clientOnly) }
      n clientOnly

/-- `MicroBlocksDevice.findPropertyById(varId)`. -/
def findPropertyById (d : DeviceM) (i : Nat) : Option PropM :=
  d.props.find? (fun p => p.varId == some i)

/-- `MicroBlocksAdapter.processVariableValue(serialPort, objectId, varValue,
varType)`, `objectId ≠ 0xFF` branch, on the paired device: look the property
up by variable id, store the incoming type, then either apply the value
tagged client-only (no echo pending) or, when `requestingChange` is set,
only clear the flag (the expected echo, suppressed). -/
def processVariableValue (d : DeviceM) (objectId : Nat) (varValue : JSVal)
    (varType : Int) : DeviceM :=
  match findPropertyById d objectId with
  | none => d
  | some p =>
    let d1 : DeviceM := { d with props := putProp d.props p.name (upVarType varType) }
    if ¬ p.requestingChange then setValue d1 p.name varValue true
    else { d1 with props := putProp d1.props p.name upClear }

/-- `MicroBlocksAdapter.processVariableName(serialPort, objectId, varName)`
on the paired device: store the id on the matching pending binding and
immediately write the `getVarValue` short frame `[0xFA, 0x07, objectId]`. -/
def processVariableName (d : DeviceM) (objectId : Nat) (varName : JSVal) : DeviceM :=
  match varName with
  | .str s =>
    match getProp d s with
    | none => d
    | some _ =>
      let d1 : DeviceM := { d with props := putProp d.props s (upVarId objectId) }
      { d1 with outbound := d1.outbound ++ [[0xFA, 0x07, objectId]] }
  | _ => d

/-- The body of the per-property poll `setInterval` installed by the
`MicroBlocksProperty` constructor: a `getVarValue` short frame, only when
`varId` is truthy and no write is in flight. -/
def pollTick (p : PropM) : Option (List Nat) :=
  if varIdTruthy p.varId ∧ ¬ p.requestingChange then
    some [0xFA, 0x07, p.varId.getD 0]
  else none

/-- `MicroBlocksAdapter.removeThing(thing)`: `clearInterval` every
property's poll timer, close the serial port if still open, delete the
device from the adapter registry.  No code path clears the anonymous
echo-clear intervals, so `echoTimers` is untouched. -/
def removeThing (d : DeviceM) : DeviceM :=
  { d with props := d.props.map (fun p => { p with pollerActive := false }),
           portOpen := false,
           inRegistry := false }

/-- The thing-description repair in `processVariableValue`
(`objectId === 0xFF`): a trailing comma (code 44) is removed and two close
braces (code 125) appended; otherwise a trailing open brace (code 123) gets
two close braces appended; otherwise the string is unchanged. -/
def fixDescription (s : List Nat) : List Nat :=
  if s.getLast? = some 44 then s.dropLast ++ [125, 125]
  else if s.getLast? = some 123 then s ++ [125, 125]
  else s

structure AdapterM (α : Type) where
  added : List α
  portOpen : Bool
  deriving Repr

/-- The `objectId === 0xFF` branch of `processVariableValue`: repair the
description, `JSON.parse` it and `addDevice`, all inside try/catch.
`JSON.parse` is library code, abstracted as `parse`; a throw is `none`.
A failure (including a non-string payload, whose `endsWith` call throws)
is caught and logged; nothing is added and the session continues. -/
def processDescription {α : Type} (parse : List Nat → Option α)
    (st : AdapterM α) (v : JSVal) : AdapterM α :=
  match v with
  | .str s =>
    match parse (fixDescription s) with
    | some desc => { st with added := st.added ++ [desc] }
    | none => st
  | _ => st

/-- `find?` after an in-place update of the (first) property named `n`,
for updates that do not rename the property. -/
theorem find?_putProp (ps : List PropM) (n : List Nat) (f : PropM → PropM)
    (hf : ∀ p, (f p).name = p.name) :
    (putProp ps n f).find? (fun p => p.name == n) =
      (ps.find? (fun p => p.name == n)).map f := by
  induction ps with
  | nil => rfl
  | cons p ps ih =>
    by_cases h : (p.name == n) = true
    · simp only [putProp, if_pos h]
      have e1 : List.find? (fun q => q.name == n) (f p :: ps) = some (f p) :=
        List.find?_cons_of_pos ps (by rw [hf]; exact h)
      have e2 : List.find? (fun q => q.name == n) (p :: ps) = some p :=
        List.find?_cons_of_pos ps h
      rw [e1, e2]
      rfl
    · simp only [putProp, if_neg h]
      have e1 : List.find? (fun q => q.name == n) (p :: putProp ps n f) =
          List.find? (fun q => q.name == n) (putProp ps n f) :=
        List.find?_cons_of_neg _ (by simpa using h)
      have e2 : List.find? (fun q => q.name == n) (p :: ps) =
          List.find? (fun q => q.name == n) ps :=
        List.find?_cons_of_neg _ (by simpa using h)
      rw [e1, e2, ih]

theorem notifyPropertyChanged_props (d : DeviceM) (n : List Nat) (c : Bool) :
    (notifyPropertyChanged d n c).props = d.props := by
  unfold notifyPropertyChanged
  cases hg : getProp d n with
  | none => rfl
  | some p =>
    by_cases h : (¬ c ∧ varIdTruthy p.varId = true)
    · simp only [if_pos h]
      cases packSetVariableMessage (p.varId.getD 0) p.value p.varType with
      | none => rfl
      | some m => rfl
    · simp only [if_neg h]

theorem notify_clientOnly (d : DeviceM) (n : List Nat) (p : PropM)
    (hfind : getProp d n = some p) :
    notifyPropertyChanged d n true =
      { d with hostNotifs := d.hostNotifs ++ [(n, p.value)] } := by
  unfold notifyPropertyChanged
  rw [hfind]
  simp

theorem getProp_putProp (d : DeviceM) (n : List Nat) (p : PropM)
    (f : PropM → PropM) (hf : ∀ q, (f q).name = q.name)
    (hfind : getProp d n = some p) :
    (putProp d.props n f).find? (fun q => q.name == n) = some (f p) := by
  rw [find?_putProp d.props n f hf]
  unfold getProp at hfind
  rw [hfind]
  rfl

/-- Claim C3: echo suppression.
(a) A host-initiated (non-client-only) `setValue` on a property sets its
`requestingChange` flag (and caches the value).
(b) An inbound `variableValue` frame addressed to the property's variable id
while the flag is set only clears the flag and stores the type: the value is
not re-applied to the host (`hostNotifs` unchanged) and no outbound frame is
written.
(c) An inbound `variableValue` frame while the flag is clear is propagated
to the host exactly once, tagged client-only: exactly one host
notification, no outbound `setVar` frame, no echo timer started, and the
flag stays clear. -/
theorem c3_echo_suppression (d : DeviceM) (p : PropM) (n : List Nat)
    (v : JSVal) (t : Int) (i : Nat) :
    (getProp d n = some p →
      getProp (setValue d n v false) n =
        some { p with requestingChange := true, value := v }) ∧
    (findPropertyById d i = some p → getProp d p.name = some p →
      p.requestingChange = true →
      getProp (processVariableValue d i v t) p.name =
        some { p with varType := t, requestingChange := false } ∧
      (processVariableValue d i v t).hostNotifs = d.hostNotifs ∧
      (processVariableValue d i v t).outbound = d.outbound ∧
      (processVariableValue d i v t).echoTimers = d.echoTimers) ∧
    (findPropertyById d i = some p → getProp d p.name = some p →
      p.requestingChange = false →
      getProp (processVariableValue d i v t) p.name =
        some { p with varType := t, value := v } ∧
      (processVariableValue d i v t).hostNotifs =
        d.hostNotifs ++ [(p.name, v)] ∧
      (processVariableValue d i v t).outbound = d.outbound ∧
      (processVariableValue d i v t).echoTimers = d.echoTimers) := by
  refine ⟨?_, ?_, ?_⟩
  · intro hfind
    simp only [setValue, hfind]
    unfold getProp
    rw [notifyPropertyChanged_props]
    show (putProp d.props n (upSet v false)).find? (fun q => q.name == n) = _
    rw [getProp_putProp d n p (upSet v false) (fun q => rfl) hfind]
    rfl
  · intro hid hfirst hrc
    simp only [processVariableValue, hid]
    rw [if_neg (by simp [hrc])]
    refine ⟨?_, rfl, rfl, rfl⟩
    unfold getProp
    show (putProp (putProp d.props p.name (upVarType t)) p.name upClear).find?
      (fun q => q.name == p.name) = _
    rw [find?_putProp _ p.name upClear (fun q => rfl)]
    rw [getProp_putProp d p.name p (upVarType t) (fun q => rfl) hfirst]
    rfl
  · intro hid hfirst hrc
    simp only [processVariableValue, hid]
    rw [if_pos (by simp [hrc])]
    have hg1 : getProp
        { d with props := putProp d.props p.name (upVarType t) } p.name =
        some (upVarType t p) := by
      unfold getProp
      show (putProp d.props p.name (upVarType t)).find? (fun q => q.name == p.name) = _
      rw [getProp_putProp d p.name p (upVarType t) (fun q => rfl) hfirst]
    simp only [setValue, hg1]
    have hg2 : getProp { d with props := putProp (putProp d.props p.name (upVarType t)) p.name (upSet v true) } p.name = some (upSet v true (upVarType t p)) := by
      unfold getProp
      show (putProp (putProp d.props p.name (upVarType t)) p.name (upSet v true)).find?
        (fun q => q.name == p.name) = _
      rw [find?_putProp _ p.name (upSet v true) (fun q => rfl)]
      rw [getProp_putProp d p.name p (upVarType t) (fun q => rfl) hfirst]
      rfl
    rw [notify_clientOnly _ _ _ hg2]
    refine ⟨?_, ?_, rfl, rfl⟩
    · unfold getProp
      show (putProp (putProp d.props p.name (upVarType t)) p.name (upSet v true)).find?
        (fun q => q.name == p.name) = _
      rw [find?_putProp _ p.name (upSet v true) (fun q => rfl)]
      rw [getProp_putProp d p.name p (upVarType t) (fun q => rfl) hfirst]
      rfl
    · rfl

/-- Claim C3 witness: a single-property device bound to variable id 2.
Host set marks the flag and caches; the echo (flag set) only clears the
flag; an unsolicited remote change (flag clear) reaches the host exactly
once and writes nothing back. -/
theorem c3_witness :
    getProp (setValue ⟨[⟨[108, 101, 118, 101, 108], some 2, 1, false, .int 0, true⟩],
        [], [], 0, true, true⟩ [108, 101, 118, 101, 108] (.int 5) false)
        [108, 101, 118, 101, 108] =
      some ⟨[108, 101, 118, 101, 108], some 2, 1, true, .int 5, true⟩ ∧
    getProp (processVariableValue ⟨[⟨[108, 101, 118, 101, 108], some 2, 1, true, .int 0, true⟩],
        [], [], 0, true, true⟩ 2 (.int 7) 1) [108, 101, 118, 101, 108] =
      some ⟨[108, 101, 118, 101, 108], some 2, 1, false, .int 0, true⟩ ∧
    (processVariableValue ⟨[⟨[108, 101, 118, 101, 108], some 2, 1, true, .int 0, true⟩],
        [], [], 0, true, true⟩ 2 (.int 7) 1).hostNotifs = [] ∧
    (processVariableValue ⟨[⟨[108, 101, 118, 101, 108], some 2, 1, false, .int 0, true⟩],
        [], [], 0, true, true⟩ 2 (.int 7) 1).hostNotifs =
      [([108, 101, 118, 101, 108], .int 7)] ∧
    (processVariableValue ⟨[⟨[108, 101, 118, 101, 108], some 2, 1, false, .int 0, true⟩],
        [], [], 0, true, true⟩ 2 (.int 7) 1).outbound = [] := by
  have ha := (c3_echo_suppression
    ⟨[⟨[108, 101, 118, 101, 108], some 2, 1, false, .int 0, true⟩], [], [], 0, true, true⟩
    ⟨[108, 101, 118, 101, 108], some 2, 1, false, .int 0, true⟩
    [108, 101, 118, 101, 108] (.int 5) 1 2).1 (by decide)
  have hb := (c3_echo_suppression
    ⟨[⟨[108, 101, 118, 101, 108], some 2, 1, true, .int 0, true⟩], [], [], 0, true, true⟩
    ⟨[108, 101, 118, 101, 108], some 2, 1, true, .int 0, true⟩
    [108, 101, 118, 101, 108] (.int 7) 1 2).2.1 (by decide) (by decide) rfl
  have hc := (c3_echo_suppression
    ⟨[⟨[108, 101, 118, 101, 108], some 2, 1, false, .int 0, true⟩], [], [], 0, true, true⟩
    ⟨[108, 101, 118, 101, 108], some 2, 1, false, .int 0, true⟩
    [108, 101, 118, 101, 108] (.int 7) 1 2).2.2 (by decide) (by decide) rfl
  exact ⟨ha.trans (by decide), hb.1.trans (by decide), hb.2.1.trans (by decide),
    hc.2.1.trans (by decide), hc.2.2.1.trans (by decide)⟩

/-- Claim C6: receiving the long frame
`[0xFB, 0x1D, 0x02, 0x05, 0x00, 'l','e','v','e','l', 0xFE]` on a link whose
paired device has a (pending) property binding named "level": the framer
decodes exactly this one varName frame (dataSize 5 read from the frame,
payload decoding to the raw string "level"), `processVariableName` stores
variable id 2 on the binding and immediately writes the `getVarValue` short
frame `[0xFA, 0x07, 0x02]`. -/
theorem c6_var_name (d : DeviceM) (p : PropM)
    (hfind : getProp d [108, 101, 118, 101, 108] = some p)
    (hpending : p.varId = none) :
    dsz [0xFB, 0x1D, 0x02, 0x05, 0x00, 108, 101, 118, 101, 108, 0xFE] = 5 ∧
    (processData [0xFB, 0x1D, 0x02, 0x05, 0x00, 108, 101, 118, 101, 108, 0xFE]).1 =
      [⟨0x1D, 0x02, [108, 101, 118, 101, 108]⟩] ∧
    getPayload [0xFB, 0x1D, 0x02, 0x05, 0x00, 108, 101, 118, 101, 108, 0xFE] 5 =
      some (.str [108, 101, 118, 101, 108]) ∧
    getProp (processVariableName d 2 (.str [108, 101, 118, 101, 108]))
        [108, 101, 118, 101, 108] = some { p with varId := some 2 } ∧
    (processVariableName d 2 (.str [108, 101, 118, 101, 108])).outbound =
      d.outbound ++ [[0xFA, 0x07, 0x02]] := by
  refine ⟨by decide, by decide, by decide, ?_, ?_⟩
  · simp only [processVariableName, hfind]
    unfold getProp
    show (putProp d.props [108, 101, 118, 101, 108] (upVarId 2)).find?
      (fun q => q.name == [108, 101, 118, 101, 108]) = _
    rw [getProp_putProp d _ p (upVarId 2) (fun q => rfl) hfind]
    rfl
  · simp only [processVariableName, hfind]

/-- Claim C6 witness: a device with the pending binding "level". -/
theorem c6_witness :
    getProp (processVariableName ⟨[⟨[108, 101, 118, 101, 108], none, 1, false, .int 0, true⟩],
        [], [], 0, true, true⟩ 2 (.str [108, 101, 118, 101, 108]))
        [108, 101, 118, 101, 108] =
      some ⟨[108, 101, 118, 101, 108], some 2, 1, false, .int 0, true⟩ ∧
    (processVariableName ⟨[⟨[108, 101, 118, 101, 108], none, 1, false, .int 0, true⟩],
        [], [], 0, true, true⟩ 2 (.str [108, 101, 118, 101, 108])).outbound =
      [[0xFA, 0x07, 0x02]] := by
  have h := c6_var_name
    ⟨[⟨[108, 101, 118, 101, 108], none, 1, false, .int 0, true⟩], [], [], 0, true, true⟩
    ⟨[108, 101, 118, 101, 108], none, 1, false, .int 0, true⟩ (by decide) rfl
  exact ⟨h.2.2.2.1.trans (by decide), h.2.2.2.2.trans (by decide)⟩

/-- Claim C7 (code-bug evidence).  `removeThing` does cancel every
per-property poll interval, closes the port and deletes the device from the
registry — but the echo-clear `setInterval` started by a host-initiated
write survives teardown: `notifyPropertyChanged` discards its handle and no
code path ever clears it, so after `removeThing` it keeps firing against
the torn-down session, contradicting the claim (and spec section 5). -/
theorem c7_removeThing_leaves_echo_interval :
    (setValue ⟨[⟨[108, 101, 118, 101, 108], some 2, 1, false, .int 0, true⟩,
        ⟨[111, 110], some 3, 3, false, .bool false, true⟩], [], [], 0, true, true⟩
      [108, 101, 118, 101, 108] (.int 5) false).echoTimers = 1 ∧
    (removeThing (setValue ⟨[⟨[108, 101, 118, 101, 108], some 2, 1, false, .int 0, true⟩,
        ⟨[111, 110], some 3, 3, false, .bool false, true⟩], [], [], 0, true, true⟩
      [108, 101, 118, 101, 108] (.int 5) false)).portOpen = false ∧
    (removeThing (setValue ⟨[⟨[108, 101, 118, 101, 108], some 2, 1, false, .int 0, true⟩,
        ⟨[111, 110], some 3, 3, false, .bool false, true⟩], [], [], 0, true, true⟩
      [108, 101, 118, 101, 108] (.int 5) false)).inRegistry = false ∧
    ((removeThing (setValue ⟨[⟨[108, 101, 118, 101, 108], some 2, 1, false, .int 0, true⟩,
        ⟨[111, 110], some 3, 3, false, .bool false, true⟩], [], [], 0, true, true⟩
      [108, 101, 118, 101, 108] (.int 5) false)).props.all
        (fun p => p.pollerActive == false)) = true ∧
    (removeThing (setValue ⟨[⟨[108, 101, 118, 101, 108], some 2, 1, false, .int 0, true⟩,
        ⟨[111, 110], some 3, 3, false, .bool false, true⟩], [], [], 0, true, true⟩
      [108, 101, 118, 101, 108] (.int 5) false)).echoTimers = 1 := by
  decide

/-- Claim C8: a host-initiated change on a property whose variable id is
not yet known (`undefined`) — or, because the guard is JS truthiness of
`varId`, equal to 0 — writes no `setVar` frame (and starts no echo timer;
there is no queue or retry state at all), and such a property is never
polled by the poll interval. -/
theorem c8_unresolved_write_dropped (d : DeviceM) (n : List Nat) (p : PropM)
    (v : JSVal) (hfind : getProp d n = some p)
    (hid : p.varId = none ∨ p.varId = some 0) :
    varIdTruthy p.varId = false ∧
    (setValue d n v false).outbound = d.outbound ∧
    (setValue d n v false).echoTimers = d.echoTimers ∧
    pollTick p = none := by
  have htr : varIdTruthy p.varId = false := by
    rcases hid with h | h <;> rw [h] <;> rfl
  have hg1 : getProp { d with props := putProp d.props n (upSet v false) } n =
      some (upSet v false p) := by
    unfold getProp
    show (putProp d.props n (upSet v false)).find? (fun q => q.name == n) = _
    rw [getProp_putProp d n p (upSet v false) (fun q => rfl) hfind]
  have hkey : setValue d n v false =
      { d with props := putProp d.props n (upSet v false),
               hostNotifs := d.hostNotifs ++ [(n, v)] } := by
    simp only [setValue, hfind]
    simp only [notifyPropertyChanged, hg1]
    simp [htr, show (upSet v false p).varId = p.varId from rfl,
      show (upSet v false p).value = v from rfl]
  refine ⟨htr, ?_, ?_, ?_⟩
  · rw [hkey]
  · rw [hkey]
  · unfold pollTick
    rw [if_neg (by simp [htr])]

/-- Claim C8 witness: unresolved (`undefined`) and zero variable ids. -/
theorem c8_witness :
    (setValue ⟨[⟨[108, 101, 118, 101, 108], none, 1, false, .int 0, true⟩],
        [], [], 0, true, true⟩ [108, 101, 118, 101, 108] (.int 5) false).outbound = [] ∧
    (setValue ⟨[⟨[108, 101, 118, 101, 108], some 0, 1, false, .int 0, true⟩],
        [], [], 0, true, true⟩ [108, 101, 118, 101, 108] (.int 5) false).outbound = [] ∧
    pollTick ⟨[108, 101, 118, 101, 108], some 0, 1, false, .int 0, true⟩ = none := by
  have h1 := c8_unresolved_write_dropped
    ⟨[⟨[108, 101, 118, 101, 108], none, 1, false, .int 0, true⟩], [], [], 0, true, true⟩
    [108, 101, 118, 101, 108]
    ⟨[108, 101, 118, 101, 108], none, 1, false, .int 0, true⟩ (.int 5)
    (by decide) (Or.inl rfl)
  have h2 := c8_unresolved_write_dropped
    ⟨[⟨[108, 101, 118, 101, 108], some 0, 1, false, .int 0, true⟩], [], [], 0, true, true⟩
    [108, 101, 118, 101, 108]
    ⟨[108, 101, 118, 101, 108], some 0, 1, false, .int 0, true⟩ (.int 5)
    (by decide) (Or.inr rfl)
  exact ⟨h1.2.1.trans (by decide), h2.2.1.trans (by decide), h2.2.2.2⟩

/-- Claim C9: the description repair tried on a `variableValue` frame with
objectId 0xFF — a trailing comma is removed and two close braces appended
(this branch is tested first), else a trailing open brace gets two close
braces appended; and if parsing still fails the error is caught: no device
is created and the session state is untouched (not aborted). -/
theorem c9_description_repair {α : Type} (parse : List Nat → Option α)
    (st : AdapterM α) (s : List Nat) :
    (s.getLast? = some 44 → fixDescription s = s.dropLast ++ [125, 125]) ∧
    (s.getLast? = some 123 → fixDescription s = s ++ [125, 125]) ∧
    (parse (fixDescription s) = none →
      processDescription parse st (.str s) = st) := by
  refine ⟨?_, ?_, ?_⟩
  · intro h
    unfold fixDescription
    rw [if_pos h]
  · intro h
    unfold fixDescription
    rw [if_neg (by simp [h]), if_pos h]
  · intro h
    simp only [processDescription, h]

/-- Claim C9 witness: a truncated description ending in a comma, one ending
in an open brace, and a still-unparsable one that is dropped without
touching the session. -/
theorem c9_witness :
    fixDescription [123, 34, 34, 44] = [123, 34, 34, 125, 125] ∧
    fixDescription [123] = [123, 125, 125] ∧
    processDescription (fun _ => (none : Option Nat)) ⟨[], true⟩ (.str [123, 44]) =
      ⟨[], true⟩ := by
  have h1 := c9_description_repair (fun _ => (none : Option Nat)) ⟨[], true⟩ [123, 34, 34, 44]
  have h2 := c9_description_repair (fun _ => (none : Option Nat)) ⟨[], true⟩ [123]
  have h3 := c9_description_repair (fun _ => (none : Option Nat)) ⟨[], true⟩ [123, 44]
  exact ⟨(h1.1 (by decide)).trans (by decide), (h2.2.1 (by decide)).trans (by decide),
    h3.2.2 rfl⟩

/-! ### The uprotocol.js framer (`Protocol.parseMessage`)

`processRawData` concatenates each chunk onto `messageBuffer` and calls
`parseMessage`, which: clears the buffer when the first byte is neither
`0xFA` nor `0xFB`; returns and waits while `!opCode` (the opcode byte is
absent — or equal to 0, which `!` cannot distinguish); dispatches a
complete long (`>= dataSize + 5` bytes) or short (3 bytes) message,
slices it off and recurses; otherwise waits. -/

/-- One message dispatched by `Protocol.processMessage`: opcode (the
descriptor selector is a function of it), the `taskId` byte, and for long
messages with nonzero `dataSize` the payload slice (JS passes no data
argument otherwise). -/
structure UMsg where
  opCode : Nat
  taskId : Nat
  data : Option (List Nat)
  deriving Repr, DecidableEq

/-- Fuel-indexed recursion for `parseMessage`; each recursive call removes
at least 3 buffered bytes, so `buf.length` fuel suffices. -/
def parseMessageF : Nat → List Nat → List UMsg × List Nat
  | 0, buf => ([], buf)
  | fuel + 1, buf =>
    if buf.getD 0 0 ≠ 0xFA ∧ buf.getD 0 0 ≠ 0xFB then ([], [])
    else if buf.getD 1 0 = 0 then ([], buf)
    else if buf.getD 0 0 = 0xFB ∧ 5 ≤ buf.length then
      if (buf.getD 3 0 ||| (buf.getD 4 0 <<< 8)) + 5 ≤ buf.length then
        (⟨buf.getD 1 0, buf.getD 2 0,
            if buf.getD 3 0 ||| (buf.getD 4 0 <<< 8) ≠ 0 then
              some ((buf.drop 5).take (buf.getD 3 0 ||| (buf.getD 4 0 <<< 8)))
            else none⟩ ::
          (parseMessageF fuel (buf.drop (5 + (buf.getD 3 0 ||| (buf.getD 4 0 <<< 8))))).1,
         (parseMessageF fuel (buf.drop (5 + (buf.getD 3 0 ||| (buf.getD 4 0 <<< 8))))).2)
      else ([], buf)
    else if buf.getD 0 0 ≠ 0xFB ∧ 3 ≤ buf.length then
      (⟨buf.getD 1 0, buf.getD 2 0, none⟩ :: (parseMessageF fuel (buf.drop 3)).1,
       (parseMessageF fuel (buf.drop 3)).2)
    else ([], buf)

def parseMessage (buf : List Nat) : List UMsg × List Nat :=
  parseMessageF buf.length buf

/-- `Protocol.processRawData(data)`: append the chunk to `messageBuffer`
and run `parseMessage`; dispatched messages accumulate. -/
def uFeed (st : List UMsg × List Nat) (c : List Nat) : List UMsg × List Nat :=
  (st.1 ++ (parseMessage (st.2 ++ c)).1, (parseMessage (st.2 ++ c)).2)

def uFeedAll (st : List UMsg × List Nat) (cs : List (List Nat)) :
    List UMsg × List Nat :=
  cs.foldl uFeed st

theorem parseMessage_opcode_zero (b0 : Nat) (rest : List Nat)
    (hb : b0 = 0xFA ∨ b0 = 0xFB) :
    parseMessage (b0 :: 0 :: rest) = ([], b0 :: 0 :: rest) := by
  show parseMessageF (rest.length + 1 + 1) (b0 :: 0 :: rest) = _
  simp only [parseMessageF]
  have h0 : (b0 :: 0 :: rest).getD 0 0 = b0 := rfl
  have h1 : (b0 :: 0 :: rest).getD 1 0 = 0 := rfl
  rw [h0, h1]
  rcases hb with h | h <;> subst h <;> norm_num

/-- Claim C10: in the uprotocol.js framer, whenever the buffer starts with a
valid marker (`0xFA` or `0xFB`) whose following opcode byte is 0x00,
`parseMessage` returns without consuming bytes or dispatching anything
(`!opCode` treats opcode 0 like a missing opcode); and since
`processRawData` only ever appends to the buffer, no later chunk can
unblock it: from that state on the framer never emits and never discards
another frame on that link. -/
theorem c10_opcode_zero_deadlock (b0 : Nat) (rest : List Nat)
    (hb : b0 = 0xFA ∨ b0 = 0xFB) :
    parseMessage (b0 :: 0 :: rest) = ([], b0 :: 0 :: rest) ∧
    ∀ cs : List (List Nat), ∀ acc : List UMsg,
      uFeedAll (acc, b0 :: 0 :: rest) cs = (acc, (b0 :: 0 :: rest) ++ cs.flatten) := by
  refine ⟨parseMessage_opcode_zero b0 rest hb, ?_⟩
  intro cs
  induction cs generalizing rest with
  | nil =>
    intro acc
    simp [uFeedAll]
  | cons c cs ih =>
    intro acc
    simp only [uFeedAll, List.foldl_cons]
    have hstep : uFeed (acc, b0 :: 0 :: rest) c = (acc, b0 :: 0 :: (rest ++ c)) := by
      unfold uFeed
      have happ : (b0 :: 0 :: rest) ++ c = b0 :: 0 :: (rest ++ c) := rfl
      show (acc ++ (parseMessage ((b0 :: 0 :: rest) ++ c)).1,
        (parseMessage ((b0 :: 0 :: rest) ++ c)).2) = _
      rw [happ, parseMessage_opcode_zero b0 (rest ++ c) hb]
      simp
    rw [hstep]
    have hrec := ih (rest ++ c) acc
    simp only [uFeedAll] at hrec
    rw [hrec]
    simp

/-- Claim C10 witness: a concrete stuck buffer fed two further chunks. -/
theorem c10_witness :
    parseMessage [0xFA, 0, 7] = ([], [0xFA, 0, 7]) ∧
    uFeedAll ([], [0xFA, 0, 7]) [[5], [6, 7]] = ([], [0xFA, 0, 7, 5, 6, 7]) := by
  have h := c10_opcode_zero_deadlock 0xFA [7] (Or.inl rfl)
  refine ⟨h.1, ?_⟩
  have h2 := h.2 [[5], [6, 7]] []
  simpa using h2

end MB
